import Mathlib

/-!
Verification of the catalog-viewer SPA datastore loading/caching subsystem
(the Pinia `useCatalogStore` store).

The store's cell values are untyped JavaScript values.  We embed the fragment
of the JavaScript value universe that the store manipulates: `null`/`undefined`
(merged, since the code only ever distinguishes them with `== null` /
`!== null && !== undefined` checks which treat them alike), booleans, integers,
strings, native arrays, and DuckDB vector wrappers (objects exposing a
`toArray` method).
-/

inductive JSValue where
  | vnull
  | vbool (b : Bool)
  | vnum (n : Int)
  | vstr (s : String)
  | varr (xs : List JSValue)
  | vvec (xs : List JSValue)

namespace JSValue

/-- `value === null || value === undefined` (both map to `vnull`). -/
def isNull : JSValue → Bool
  | .vnull => true
  | _ => false

/-- JavaScript truthiness of a value (`if (value)`, `a || b`, `x ? y : z`).
Objects - arrays and vector wrappers - are always truthy. -/
def truthy : JSValue → Bool
  | .vnull => false
  | .vbool b => b
  | .vnum n => n != 0
  | .vstr s => s != ""
  | .varr _ => true
  | .vvec _ => true

end JSValue

mutual

/-- Structure size of a value, used as recursion fuel for stringification. -/
def jsSize : JSValue → Nat
  | .vnull => 1
  | .vbool _ => 1
  | .vnum _ => 1
  | .vstr _ => 1
  | .varr xs => 1 + jsSizeL xs
  | .vvec xs => 1 + jsSizeL xs

/-- Total structure size of a list of values. -/
def jsSizeL : List JSValue → Nat
  | [] => 0
  | x :: xs => jsSize x + jsSizeL xs

end

/-- Fuel-bounded `String(value)` stringification.  `String(null) = "null"`,
numbers and booleans print their usual form, arrays join their elements with
commas with null elements printed as the empty string (`Array.prototype.toString`);
we give the engine vector wrapper the same rendering.  The fuel exceeds the
nesting depth at every call site (see `jsToString`). -/
def jsToStringF : JSValue → Nat → String
  | .vnull, _ => "null"
  | .vbool b, _ => cond b "true" "false"
  | .vnum n, _ => toString n
  | .vstr s, _ => s
  | .varr _, 0 => ""
  | .vvec _, 0 => ""
  | .varr xs, f + 1 =>
      String.intercalate "," (xs.map fun x =>
        match x with
        | .vnull => ""
        | y => jsToStringF y f)
  | .vvec xs, f + 1 =>
      String.intercalate "," (xs.map fun x =>
        match x with
        | .vnull => ""
        | y => jsToStringF y f)

/-- `String(value)` as used by the store's normalizers.  `jsSize v` strictly
dominates the nesting depth of `v`, so the fuel never runs out. -/
def jsToString (v : JSValue) : String := jsToStringF v (jsSize v)

/-! ### A model of the `JSON.parse` builtin

`processField` / `processListField` run string cells through `JSON.parse`,
falling back to treating the string as a plain value when parsing throws.
We model the builtin with a recursive-descent reader of the JSON fragment the
catalog data uses: `null`, booleans, integers, double-quoted strings (with the
common escapes) and arrays of these.  A string outside this fragment fails to
parse, which the normalizers treat exactly like a `JSON.parse` exception. -/

/-- Skip JSON whitespace. -/
def jsonSkipWs : List Char → List Char
  | c :: cs => if c = ' ' ∨ c = '\t' ∨ c = '\n' ∨ c = '\r' then jsonSkipWs cs else c :: cs
  | [] => []

/-- The escape table of the JSON string grammar fragment we read. -/
def jsonEscTable : List (Char × Char) :=
  [('"', '"'), ('\\', '\\'), ('/', '/'), ('n', '\n'), ('t', '\t'), ('r', '\r')]

/-- One JSON string escape, looked up in the table. -/
def jsonEsc (e : Char) : Option Char :=
  (jsonEscTable.find? (fun q => q.1 == e)).map (fun q => q.2)

/-- Read a double-quoted string body (opening quote already consumed). -/
def jsonStrBody : List Char → Option (List Char × List Char)
  | [] => none
  | c0 :: rest0 =>
      if c0 = '"' then some ([], rest0)
      else if c0 = '\\' then
        match rest0 with
        | [] => none
        | e :: rest1 =>
            match jsonEsc e, jsonStrBody rest1 with
            | some c1, some (body, rest2) => some (c1 :: body, rest2)
            | _, _ => none
      else
        match jsonStrBody rest0 with
        | some (body, rest1) => some (c0 :: body, rest1)
        | none => none

/-- Consume an expected literal tail (e.g. `ull` after the leading `n`). -/
def jsonTail : List Char → List Char → Option (List Char)
  | [], cs => some cs
  | l :: ls, c :: cs => if c = l then jsonTail ls cs else none
  | _ :: _, [] => none

/-- Read a run of decimal digits into a natural number. -/
def jsonDigits (acc : Nat) : List Char → Nat × List Char
  | c :: cs =>
      if c.isDigit then jsonDigits (acc * 10 + (c.toNat - '0'.toNat)) cs else (acc, c :: cs)
  | [] => (acc, [])

/-- Fuel-bounded JSON value reader.  `inArr = false` reads one value;
`inArr = true` reads the remaining comma-separated items of an array whose
elements so far are `acc`. -/
def jsonP : Nat → Bool → List JSValue → List Char → Option (JSValue × List Char)
  | 0, _, _, _ => none
  | fuel + 1, false, _, cs =>
      (match jsonSkipWs cs with
       | [] => none
       | c0 :: rest =>
           if c0 = '[' then
             match jsonSkipWs rest with
             | ']' :: r => some (.varr [], r)
             | cs2 => jsonP fuel true [] cs2
           else if c0 = '"' then
             (jsonStrBody rest).map (fun q => (.vstr (String.mk q.1), q.2))
           else if c0 = 'n' then
             (jsonTail ['u', 'l', 'l'] rest).map (fun r => (.vnull, r))
           else if c0 = 't' then
             (jsonTail ['r', 'u', 'e'] rest).map (fun r => (.vbool true, r))
           else if c0 = 'f' then
             (jsonTail ['a', 'l', 's', 'e'] rest).map (fun r => (.vbool false, r))
           else if c0 = '-' then
             match rest with
             | c1 :: rest1 =>
                 if c1.isDigit then
                   let q := jsonDigits (c1.toNat - '0'.toNat) rest1
                   some (.vnum (-(q.1 : Int)), q.2)
                 else none
             | [] => none
           else if c0.isDigit then
             let q := jsonDigits (c0.toNat - '0'.toNat) rest
             some (.vnum (q.1 : Int), q.2)
           else none)
  | fuel + 1, true, acc, cs =>
      (match jsonP fuel false [] cs with
       | none => none
       | some (v, r) =>
           match jsonSkipWs r with
           | ',' :: r2 => jsonP fuel true (acc ++ [v]) r2
           | ']' :: r2 => some (.varr (acc ++ [v]), r2)
           | _ => none)

/-- `JSON.parse(s)`: `some v` when the whole string is one JSON value of the
supported fragment, `none` when parsing throws. -/
def jsonParse (s : String) : Option JSValue :=
  match jsonP (2 * s.length + 4) false [] s.toList with
  | some (v, rest) => if jsonSkipWs rest = [] then some v else none
  | none => none

/-! ### The two cell normalizers (from `queryEsmDatastore` / `queryMetaCatalogPq`) -/

/-- The generic per-datastore cell normalizer `processField` inside
`queryEsmDatastore`.  Vector wrappers and native arrays are filtered of
null/undefined elements and then collapsed: length > 1 keeps a list of
stringified elements, otherwise the single element is stringified when truthy
and the result is `null` when it is falsy or the list is empty.  Strings are
run through `JSON.parse`: parsed arrays collapse the same way but without the
null filtering, parsed scalars stringify, and unparsable strings stringify to
themselves.  Any other value is returned unchanged. -/
def processField (value : JSValue) : JSValue :=
  match value with
  | .vnull => .vnull
  | .vvec xs =>
      let arrayValue := xs.filter (fun v => !v.isNull)
      if arrayValue.length > 1 then
        .varr (arrayValue.map (fun v => .vstr (jsToString v)))
      else
        match arrayValue with
        | v :: _ => if v.truthy then .vstr (jsToString v) else .vnull
        | [] => .vnull
  | .varr xs =>
      let filteredArray := xs.filter (fun v => !v.isNull)
      if filteredArray.length > 1 then
        .varr (filteredArray.map (fun v => .vstr (jsToString v)))
      else
        match filteredArray with
        | v :: _ => if v.truthy then .vstr (jsToString v) else .vnull
        | [] => .vnull
  | .vstr s =>
      (match jsonParse s with
       | some (.varr parsed) =>
           if parsed.length > 1 then
             .varr (parsed.map (fun v => .vstr (jsToString v)))
           else
             match parsed with
             | v :: _ => if v.truthy then .vstr (jsToString v) else .vnull
             | [] => .vnull
       | some p => .vstr (jsToString p)
       | none => .vstr s)
  | v => v

/-- The metacatalog cell normalizer `processListField` inside
`queryMetaCatalogPq`.  Always produces a native array of strings:
null/undefined give `[]`, vector wrappers and arrays drop null elements and
stringify the rest, strings are JSON-parsed (arrays stringify element-wise,
scalars wrap in a one-element list, unparsable strings wrap as-is), and any
other scalar wraps stringified. -/
def processListField (value : JSValue) : JSValue :=
  match value with
  | .vnull => .varr []
  | .vvec xs => .varr ((xs.filter (fun v => !v.isNull)).map (fun v => .vstr (jsToString v)))
  | .varr xs => .varr ((xs.filter (fun v => !v.isNull)).map (fun v => .vstr (jsToString v)))
  | .vstr s =>
      (match jsonParse s with
       | some (.varr parsed) => .varr (parsed.map (fun v => .vstr (jsToString v)))
       | some p => .varr [.vstr (jsToString p)]
       | none => .varr [.vstr s])
  | v => .varr [.vstr (jsToString v)]

/-- A value that is a native array all of whose elements are strings. -/
def JSValue.isStringArray : JSValue → Bool
  | .varr xs => xs.all fun x => match x with | .vstr _ => true | _ => false
  | _ => false

/-- Dropping the null/undefined elements of a list, as both normalizers do
for vector wrappers and native arrays. -/
def dropNulls (xs : List JSValue) : List JSValue := xs.filter (fun u => !u.isNull)

/-! ### Filter-option indexer (`generateFilterOptions`) and `setupColumns`

A row of a datastore is a JavaScript object; we embed it as an association
list from property name to value, with `Object.keys` / `Object.entries`
giving the properties in order and property access returning the first
binding (property names are unique in every object the store builds). -/

/-- A transformed datastore row: an object mapping column names to cells. -/
abbrev JSRow := List (String × JSValue)

/-- Property access `obj[key]` on an options object: `some` the bound value
when the property is present, `none` (i.e. `undefined`) otherwise. -/
def optLookup : List (String × List String) → String → Option (List String)
  | [], _ => none
  | p :: rest, c => if p.1 = c then some p.2 else optLookup rest c

/-- `if (!options[column]) options[column] = new Set()`: create an empty
entry for the column when absent (a present `Set` is always truthy). -/
def ensureKey (o : List (String × List String)) (c : String) : List (String × List String) :=
  match optLookup o c with
  | some _ => o
  | none => o ++ [(c, [])]

/-- `options[column]?.add(s)`: add `s` to the column's value set (sets keep
one copy of each element; we append only when absent). -/
def optAddVal (o : List (String × List String)) (c s : String) : List (String × List String) :=
  o.map fun p => if p.1 = c then (p.1, if s ∈ p.2 then p.2 else p.2 ++ [s]) else p

/-- A whitespace character for `String.prototype.trim`. -/
def isWsChar (c : Char) : Bool := c == ' ' || c == '\t' || c == '\n' || c == '\r'

/-- The `trim()` of the JavaScript string builtin: drop leading and trailing
whitespace. -/
def jsTrim (s : String) : String :=
  String.mk (((s.toList.dropWhile isWsChar).reverse.dropWhile isWsChar).reverse)

/-- The guard applied to every candidate option value:
`v != null && String(v).trim()`. -/
def keepVal (v : JSValue) : Bool := !v.isNull && jsTrim (jsToString v) != ""

/-- Processing of one `[column, value]` entry of a row inside
`generateFilterOptions`: ensure the column has an accumulating set, then add
every kept element of an array cell, or the kept scalar itself. -/
def addCell (o : List (String × List String)) (col : String) (value : JSValue) :
    List (String × List String) :=
  let o1 := ensureKey o col
  match value with
  | .varr xs =>
      xs.foldl (fun acc item => if keepVal item then optAddVal acc col (jsToString item) else acc) o1
  | v => if keepVal v then optAddVal o1 col (jsToString v) else o1

/-- Lexicographic comparison of character lists by code point, the order
`Array.prototype.sort()` uses on strings (code-unit order; the two agree on
all catalog data, which is within the basic plane). -/
def charListLe : List Char → List Char → Bool
  | [], _ => true
  | _ :: _, [] => false
  | a :: as, b :: bs =>
      if a.toNat < b.toNat then true
      else if b.toNat < a.toNat then false
      else charListLe as bs

/-- String comparison used by the default JavaScript sort. -/
def strLeB (a b : String) : Bool := charListLe a.toList b.toList

/-- Insert a string into a sorted list (insertion step of the sort). -/
def insertStr (s : String) : List String → List String
  | [] => [s]
  | t :: ts => if strLeB s t then s :: t :: ts else t :: insertStr s ts

/-- `Array.from(set).sort()`: sort the accumulated values. -/
def sortStrings : List String → List String
  | [] => []
  | s :: ss => insertStr s (sortStrings ss)

/-- `generateFilterOptions`: scan every row and every column, accumulate the
per-column sets of stringified non-null non-blank values, then sort each
accumulated set into an array. -/
def generateFilterOptions (rows : List JSRow) : List (String × List String) :=
  let opts := rows.foldl (fun acc row => row.foldl (fun a p => addCell a p.1 p.2) acc) []
  opts.map fun p => (p.1, sortStrings p.2)

/-- `setupColumns`: drop the reserved positional-index column from the
display columns. -/
def setupColumns (dataColumns : List String) : List String :=
  dataColumns.filter (fun col => col != "__index_level_0__")

/-! ### Datastore cache data model (`DatastoreCache`) and load orchestration

`loadDatastore` is an async function; under the browser's single-threaded
cooperative scheduling it runs atomically between `await` points.  We embed
one call as a small-step process whose states are the code regions between
the suspension points that matter to the shared cache:

* `start`     - the synchronous prefix: cache-hit check, already-loading
                check, and the write of the initial loading placeholder;
* `fetching`  - the `Promise.all([fetch(url), initializeDuckDB()])` await,
                whose completion is the one fetch of the dataset resource;
* `finishing` - the rest of the body: response check, query, transform, and
                the final cache write (these touch no shared state until the
                final write, so they form one region);
* `polling`   - the fixed-interval wait loop of a second caller;
* `done`      - the call returned (`Except.ok`) or threw (`Except.error`).

The external world (HTTP response, engine init, query) is a parameter `env`
mapping each dataset name to its outcome. -/

structure DatastoreCache where
  data : List JSRow
  totalRecords : Nat
  columns : List String
  filterOptions : List (String × List String)
  loading : Bool
  error : Option String
  lastFetched : Nat

/-- `createEmptyCache`: the defensive placeholder returned when a polling
caller finds the entry gone. -/
def createEmptyCache (t : Nat) : DatastoreCache :=
  { data := [], totalRecords := 0, columns := [], filterOptions := [],
    loading := false, error := some "Datastore not found", lastFetched := t }

/-- The `datastoreCache` mapping from dataset name to cache record. -/
abbrev CacheMap := String → Option DatastoreCache

/-- Write one cache entry (`datastoreCache.value[name] = record`). -/
def cacheUpdate (m : CacheMap) (n : String) (r : DatastoreCache) : CacheMap :=
  fun k => if k = n then some r else m k

/-- `getDatastoreFromCache` (`datastoreCache.value[name] || null`). -/
def getDatastoreFromCache (m : CacheMap) (n : String) : Option DatastoreCache := m n

/-- `isDatastoreLoading` (`datastoreCache.value[name]?.loading || false`). -/
def isDatastoreLoading (m : CacheMap) (n : String) : Bool :=
  match m n with
  | some r => r.loading
  | none => false

/-- `clearDatastoreCache`: with a name, delete that entry; with no argument,
reset the whole mapping. -/
def clearDatastoreCache (m : CacheMap) : Option String → CacheMap
  | some n => fun k => if k = n then none else m k
  | none => fun _ => none

/-- Outcome of the external world for one dataset load: the fetch response
(non-ok status or transport failure), engine initialization, the dynamic
query, or success with the schema columns and the raw query rows. -/
inductive LoadEnv where
  | httpFail (status : Nat)
  | netFail (msg : String)
  | engineFail (msg : String)
  | queryFail (msg : String)
  | success (schemaCols : List String) (rawRows : List JSRow)

/-- The error message produced for each failing outcome: a non-ok response
throws `Failed to fetch datastore parquet file: <status>`, the other
failures carry their own `Error` message. -/
def loadErrorMsg : LoadEnv → Option String
  | .httpFail status => some ("Failed to fetch datastore parquet file: " ++ toString status)
  | .netFail m => some m
  | .engineFail m => some m
  | .queryFail m => some m
  | .success _ _ => none

/-- Property access `row[column]` on a raw row (`undefined` when absent). -/
def rowGet : JSRow → String → JSValue
  | [], _ => .vnull
  | p :: rest, c => if p.1 = c then p.2 else rowGet rest c

/-- One transformed row of `queryEsmDatastore`: every schema column mapped
through the generic `processField` normalizer. -/
def transformRowGeneric (cols : List String) (row : JSRow) : JSRow :=
  cols.map fun c => (c, processField (rowGet row c))

/-- The initial `Loading` placeholder written before any I/O starts. -/
def loadingRecord (t : Nat) : DatastoreCache :=
  { data := [], totalRecords := 0, columns := [], filterOptions := [],
    loading := true, error := none, lastFetched := t }

/-- The `Failed` record written when any part of the load throws. -/
def failedRecord (msg : String) (t : Nat) : DatastoreCache :=
  { data := [], totalRecords := 0, columns := [], filterOptions := [],
    loading := false, error := some msg, lastFetched := t }

/-- The `Ready` record built on the success path of `loadDatastore`:
transformed rows, columns from the keys of the first transformed row
(`Object.keys(datastoreData[0] || {})`) minus the reserved index column,
and the recomputed filter options. -/
def readyRecord (cols : List String) (raws : List JSRow) (t : Nat) : DatastoreCache :=
  let datastoreData := raws.map (transformRowGeneric cols)
  let dataColumns := (datastoreData.headD []).map Prod.fst
  { data := datastoreData
    totalRecords := datastoreData.length
    columns := setupColumns dataColumns
    filterOptions := generateFilterOptions datastoreData
    loading := false
    error := none
    lastFetched := t }

/-- Program counter of one `loadDatastore(n)` call. -/
inductive LoadPhase where
  | start (n : String)
  | fetching (n : String)
  | finishing (n : String)
  | polling (n : String)
  | done (n : String) (result : Except String DatastoreCache)

/-- Shared store state: the cache, the number of per-dataset resource
fetches issued so far, and an abstract clock for `lastFetched` stamps. -/
structure StoreConfig where
  cache : CacheMap
  fetches : Nat
  time : Nat

/-- One atomic step of a `loadDatastore` call (see `LoadPhase`).  `start`
returns the cached record when it is non-empty and not loading, moves to
`polling` when a load is already in flight, and otherwise writes the
loading placeholder and proceeds to fetch.  `fetching` issues the one
fetch.  `finishing` commits the ready or failed record (the failure path
rethrows, hence `Except.error`).  `polling` spins while the entry is
loading, then returns the present record, or the defensive
`createEmptyCache` placeholder when the entry vanished. -/
def stepLoad (env : String → LoadEnv) (cfg : StoreConfig) : LoadPhase → StoreConfig × LoadPhase
  | .start n =>
      (match cfg.cache n with
       | some cached =>
           if cached.data.length > 0 ∧ cached.loading = false then
             ({ cfg with time := cfg.time + 1 }, .done n (.ok cached))
           else if cached.loading then
             ({ cfg with time := cfg.time + 1 }, .polling n)
           else
             ({ cfg with
                  cache := cacheUpdate cfg.cache n (loadingRecord cfg.time)
                  time := cfg.time + 1 },
              .fetching n)
       | none =>
           ({ cfg with
                cache := cacheUpdate cfg.cache n (loadingRecord cfg.time)
                time := cfg.time + 1 },
            .fetching n))
  | .fetching n => ({ cfg with fetches := cfg.fetches + 1, time := cfg.time + 1 }, .finishing n)
  | .finishing n =>
      (match env n with
       | .success cols raws =>
           let r := readyRecord cols raws cfg.time
           ({ cfg with
                cache := cacheUpdate cfg.cache n r
                time := cfg.time + 1 },
            .done n (.ok r))
       | e =>
           let msg := (loadErrorMsg e).getD "Failed to load datastore"
           ({ cfg with
                cache := cacheUpdate cfg.cache n (failedRecord msg cfg.time)
                time := cfg.time + 1 },
            .done n (.error msg)))
  | .polling n =>
      (match cfg.cache n with
       | some r =>
           if r.loading then ({ cfg with time := cfg.time + 1 }, .polling n)
           else ({ cfg with time := cfg.time + 1 }, .done n (.ok r))
       | none => ({ cfg with time := cfg.time + 1 }, .done n (.ok (createEmptyCache cfg.time))))
  | .done n r => (cfg, .done n r)

/-- Run one `loadDatastore` call for `k` steps. -/
def runLoad (env : String → LoadEnv) : Nat → StoreConfig × LoadPhase → StoreConfig × LoadPhase
  | 0, s => s
  | k + 1, (cfg, p) => runLoad env k (stepLoad env cfg p)

/-- Two cooperative `loadDatastore` calls sharing the store. -/
structure TwoCalls where
  cfg : StoreConfig
  first : LoadPhase
  second : LoadPhase

/-- Schedule one step: `true` steps the first call, `false` the second. -/
def stepTwo (env : String → LoadEnv) (s : TwoCalls) (schedFirst : Bool) : TwoCalls :=
  if schedFirst then
    let r := stepLoad env s.cfg s.first
    { cfg := r.1, first := r.2, second := s.second }
  else
    let r := stepLoad env s.cfg s.second
    { cfg := r.1, first := s.first, second := r.2 }

/-- Run the two calls under an interleaving schedule. -/
def runTwo (env : String → LoadEnv) (s : TwoCalls) : List Bool → TwoCalls
  | [] => s
  | b :: bs => runTwo env (stepTwo env s b) bs

/-- The record-level invariant of every cache record the store writes. -/
def RecordInv (r : DatastoreCache) : Prop :=
  r.totalRecords = r.data.length ∧ (r.error ≠ none → r.loading = false)

/-- The cache-wide invariant: every present record satisfies `RecordInv`. -/
def CacheInv (m : CacheMap) : Prop := ∀ n r, m n = some r → RecordInv r

/-- `sub` occurs as a substring of `m`. -/
def strContains (m sub : String) : Prop := ∃ pre post, m = pre ++ sub ++ post

/-! ### Metacatalog state and `fetchCatalogData` -/

/-- One normalized metacatalog row.  Scalar fields keep the raw value with
the `|| ''` fallback; list fields go through `processListField`; the
`searchable*` fields are the comma-joined list fields.  The source field
named `variable` is embedded as `variableField` (`variable` is reserved in
Lean). -/
structure CatalogRow where
  name : JSValue
  model : JSValue
  description : JSValue
  realm : JSValue
  frequency : JSValue
  variableField : JSValue
  yaml : JSValue
  searchableModel : String
  searchableRealm : String
  searchableFrequency : String
  searchableVariable : String

/-- JavaScript `a || b`. -/
def jsOr (a b : JSValue) : JSValue := if a.truthy then a else b

/-- `arr.join(', ')` on a normalized list field (null elements join as the
empty string, as in JavaScript). -/
def jsJoinComma : JSValue → String
  | .varr xs =>
      String.intercalate ", " (xs.map fun x =>
        match x with
        | .vnull => ""
        | y => jsToString y)
  | _ => ""

/-- The per-row transform of `queryMetaCatalogPq`. -/
def transformCatalogRow (row : JSRow) : CatalogRow :=
  { name := jsOr (rowGet row "name") (.vstr "")
    model := processListField (rowGet row "model")
    description := jsOr (rowGet row "description") (.vstr "")
    realm := processListField (rowGet row "realm")
    frequency := processListField (rowGet row "frequency")
    variableField := processListField (rowGet row "variable")
    yaml := jsOr (rowGet row "yaml") (.vstr "")
    searchableModel := jsJoinComma (processListField (rowGet row "model"))
    searchableRealm := jsJoinComma (processListField (rowGet row "realm"))
    searchableFrequency := jsJoinComma (processListField (rowGet row "frequency"))
    searchableVariable := jsJoinComma (processListField (rowGet row "variable")) }

/-- Module-level metacatalog state of the store (`data`, `loading`,
`error`, `rawDataSample`). -/
structure CatalogState where
  data : List CatalogRow
  loading : Bool
  error : Option String
  rawDataSample : List JSRow

/-- External outcome of one metacatalog fetch-and-query. -/
inductive MetaEnv where
  | httpFail (status : Nat)
  | netFail (msg : String)
  | engineFail (msg : String)
  | queryFail (msg : String)
  | success (rawRows : List JSRow)

/-- Error message of a failing metacatalog load (`fetchMetaCatFile` throws
`Failed to fetch parquet file: <status>` on a non-ok response). -/
def metaErrorMsg : MetaEnv → Option String
  | .httpFail status => some ("Failed to fetch parquet file: " ++ toString status)
  | .netFail m => some m
  | .engineFail m => some m
  | .queryFail m => some m
  | .success _ => none

/-- `fetchCatalogData`, with the number of metacatalog fetches it performs
(0 or 1).  The guard `data.value.length > 0 && !error.value` skips the whole
load when data is already populated and the error slot is falsy (null or
the empty string).  Otherwise the load runs: on success it replaces `data`
(the raw-sample debug slot keeps the first three raw rows; the reflection
metadata the source attaches to them is not represented), on failure it
records the error message; `loading` ends false on both paths. -/
def fetchCatalogData (env : MetaEnv) (s : CatalogState) : CatalogState × Nat :=
  if s.data.length > 0 ∧ (s.error = none ∨ s.error = some "") then (s, 0)
  else
    match env with
    | .success raws =>
        ({ data := raws.map transformCatalogRow,
           loading := false,
           error := none,
           rawDataSample := raws.take 3 }, 1)
    | e =>
        ({ s with
            loading := false
            error := some ((metaErrorMsg e).getD "An unknown error occurred") },
         1)

/-- Invariant of two concurrent `loadDatastore n` calls after the first has
written the loading placeholder and the second has begun polling, for a
success environment: the first call walks fetch -> finish -> done while the
entry stays a loading placeholder until the single commit, the second call
polls until that commit, and both end with the identical ready record,
after exactly one fetch. -/
def DedupInv (n : String) (cols : List String) (raws : List JSRow) (f0 : Nat)
    (s : TwoCalls) : Prop :=
  (∃ t, s.cfg.cache n = some (loadingRecord t) ∧ s.cfg.fetches = f0 ∧
    s.first = .fetching n ∧ s.second = .polling n) ∨
  (∃ t, s.cfg.cache n = some (loadingRecord t) ∧ s.cfg.fetches = f0 + 1 ∧
    s.first = .finishing n ∧ s.second = .polling n) ∨
  (∃ t, s.cfg.cache n = some (readyRecord cols raws t) ∧ s.cfg.fetches = f0 + 1 ∧
    s.first = .done n (.ok (readyRecord cols raws t)) ∧
    (s.second = .polling n ∨ s.second = .done n (.ok (readyRecord cols raws t))))

/-- The values contributed by one cell to its column's option set: every
kept (non-null, non-blank-after-trim) element of an array cell, or the kept
scalar itself. -/
def CellObs (v : JSValue) (s : String) : Prop :=
  match v with
  | .varr xs => ∃ it ∈ xs, keepVal it = true ∧ jsToString it = s
  | v => keepVal v = true ∧ jsToString v = s

/-- The values contributed by one row to column `c`. -/
def RowObs (row : JSRow) (c s : String) : Prop :=
  ∃ p ∈ row, p.1 = c ∧ CellObs p.2 s

/-- The values observed for column `c` across all rows. -/
def Observed (rows : List JSRow) (c s : String) : Prop :=
  ∃ row ∈ rows, RowObs row c s

/-- The key list of an options object (`Object.keys(options)`). -/
def optKeys (o : List (String × List String)) : List String := o.map Prod.fst

/-- The accumulated options object is correct for predicate `P`: every
present value list is duplicate-free, and `P c s` holds exactly when `s` is
in the list bound to `c`. -/
def GoodOpts (P : String → String → Prop) (o : List (String × List String)) : Prop :=
  ∀ c : String,
    (∀ l, optLookup o c = some l → l.Nodup) ∧
    (∀ s, P c s ↔ ∃ l, optLookup o c = some l ∧ s ∈ l)

-- THEOREMS-MARKER

/-- C4: The metacatalog normalizer is total over list-typed fields: for every
input cell value (null/undefined, a native array, an engine vector wrapper,
a JSON-array string, a JSON-scalar string, a plain string, or any other
scalar), `processListField` returns a plain sequence of strings (possibly
empty), never null, undefined, or a bare scalar. -/
theorem processListField_total (v : JSValue) :
    (processListField v).isStringArray = true := by
  cases v with
  | vnull => rfl
  | vbool b => rfl
  | vnum n => rfl
  | varr xs =>
      simp [processListField, JSValue.isStringArray, List.all_map, Function.comp]
  | vvec xs =>
      simp [processListField, JSValue.isStringArray, List.all_map, Function.comp]
  | vstr s =>
      cases h : jsonParse s with
      | none => simp [processListField, h, JSValue.isStringArray]
      | some p =>
          cases p with
          | varr xs =>
              simp [processListField, h, JSValue.isStringArray, List.all_map, Function.comp]
          | vnull => simp [processListField, h, JSValue.isStringArray]
          | vbool b => simp [processListField, h, JSValue.isStringArray]
          | vnum n => simp [processListField, h, JSValue.isStringArray]
          | vstr t => simp [processListField, h, JSValue.isStringArray]
          | vvec xs => simp [processListField, h, JSValue.isStringArray]

/-- C2 counterexample: the claim says a single-element list collapses to the
bare stringified element for every input, but the code tests the element with
a JavaScript truthiness check, so the plain array `[""]` collapses to `null`,
not to the bare scalar `""`. -/
theorem processField_singleton_falsy_counterexample :
    processField (.varr [.vstr ""]) = .vnull ∧ JSValue.vnull ≠ JSValue.vstr "" :=
  ⟨rfl, fun h => JSValue.noConfusion h⟩

/-- C2 (amended): the generic per-dataset normalizer first drops
null/undefined elements for engine vector wrappers and plain arrays, and
keeps the parsed elements (nulls included) for JSON-array strings; the
resulting list collapses to `null` when empty, to the stringified element
when it has exactly one truthy element and to `null` when that one element
is falsy, and stays a list of stringified elements when its length is at
least 2. -/
theorem processField_collapse :
    (∀ xs : List JSValue, dropNulls xs = [] →
        processField (.varr xs) = .vnull ∧ processField (.vvec xs) = .vnull) ∧
    (∀ (xs : List JSValue) (v : JSValue), dropNulls xs = [v] → v.truthy = true →
        processField (.varr xs) = .vstr (jsToString v) ∧
        processField (.vvec xs) = .vstr (jsToString v)) ∧
    (∀ (xs : List JSValue) (v : JSValue), dropNulls xs = [v] → v.truthy = false →
        processField (.varr xs) = .vnull ∧ processField (.vvec xs) = .vnull) ∧
    (∀ xs : List JSValue, 2 ≤ (dropNulls xs).length →
        processField (.varr xs) = .varr ((dropNulls xs).map fun v => .vstr (jsToString v)) ∧
        processField (.vvec xs) = .varr ((dropNulls xs).map fun v => .vstr (jsToString v))) ∧
    (∀ s : String, jsonParse s = some (.varr []) → processField (.vstr s) = .vnull) ∧
    (∀ (s : String) (v : JSValue), jsonParse s = some (.varr [v]) → v.truthy = true →
        processField (.vstr s) = .vstr (jsToString v)) ∧
    (∀ (s : String) (v : JSValue), jsonParse s = some (.varr [v]) → v.truthy = false →
        processField (.vstr s) = .vnull) ∧
    (∀ (s : String) (xs : List JSValue), jsonParse s = some (.varr xs) → 2 ≤ xs.length →
        processField (.vstr s) = .varr (xs.map fun v => .vstr (jsToString v))) := by
  refine ⟨?_, ?_, ?_, ?_, ?_, ?_, ?_, ?_⟩
  · intro xs h
    simp only [dropNulls] at h
    constructor <;> (simp only [processField]; rw [h]; simp)
  · intro xs v h hv
    simp only [dropNulls] at h
    constructor <;> (simp only [processField]; rw [h]; simp [hv])
  · intro xs v h hv
    simp only [dropNulls] at h
    constructor <;> (simp only [processField]; rw [h]; simp [hv])
  · intro xs h
    simp only [dropNulls] at h ⊢
    constructor <;> (simp only [processField]; rw [if_pos (by omega)])
  · intro s h
    simp [processField, h]
  · intro s v h hv
    simp [processField, h, hv]
  · intro s v h hv
    simp [processField, h, hv]
  · intro s xs h hlen
    simp only [processField, h]
    rw [if_pos (by omega)]

/-- Concrete witness for the amended C2 collapsing behavior, one input per
case: length 0, 1 (truthy and falsy), and 2, for arrays, vectors and
JSON-array strings. -/
theorem processField_collapse_witness :
    (processField (.varr [.vnull]) = .vnull ∧ processField (.vvec [.vnull]) = .vnull) ∧
    (processField (.varr [.vstr "ocean"]) = .vstr "ocean" ∧
      processField (.vvec [.vstr "ocean"]) = .vstr "ocean") ∧
    (processField (.varr [.vstr ""]) = .vnull ∧ processField (.vvec [.vstr ""]) = .vnull) ∧
    (processField (.varr [.vstr "a", .vstr "b"]) = .varr [.vstr "a", .vstr "b"] ∧
      processField (.vvec [.vstr "a", .vstr "b"]) = .varr [.vstr "a", .vstr "b"]) ∧
    processField (.vstr "[]") = .vnull ∧
    processField (.vstr "[\"a\"]") = .vstr "a" ∧
    processField (.vstr "[0]") = .vnull ∧
    processField (.vstr "[\"a\",\"b\"]") = .varr [.vstr "a", .vstr "b"] :=
  ⟨processField_collapse.1 [.vnull] rfl,
   processField_collapse.2.1 [.vstr "ocean"] (.vstr "ocean") rfl rfl,
   processField_collapse.2.2.1 [.vstr ""] (.vstr "") rfl rfl,
   processField_collapse.2.2.2.1 [.vstr "a", .vstr "b"] (by decide),
   processField_collapse.2.2.2.2.1 "[]" rfl,
   processField_collapse.2.2.2.2.2.1 "[\"a\"]" (.vstr "a") rfl rfl,
   processField_collapse.2.2.2.2.2.2.1 "[0]" (.vnum 0) rfl rfl,
   processField_collapse.2.2.2.2.2.2.2 "[\"a\",\"b\"]" [.vstr "a", .vstr "b"] rfl (by decide)⟩

/-! ### Shared lemmas about the load machine -/

lemma runLoad_succ (env : String → LoadEnv) (k : Nat) (s : StoreConfig × LoadPhase) :
    runLoad env (k + 1) s = runLoad env k (stepLoad env s.1 s.2) := by
  obtain ⟨cfg, p⟩ := s
  rfl

lemma cacheInv_update {m : CacheMap} {n : String} {r : DatastoreCache}
    (h : CacheInv m) (hr : RecordInv r) : CacheInv (cacheUpdate m n r) := by
  intro k rk hk
  unfold cacheUpdate at hk
  split at hk
  · cases hk; exact hr
  · exact h k rk hk

/-- C6: `fetchCatalogData` is idempotent once populated and healthy: when the
metacatalog result set is non-empty and no error is recorded, a repeated call
performs no fetch and no engine work and leaves the state unchanged. -/
theorem fetchCatalogData_idempotent (env : MetaEnv) (s : CatalogState)
    (hdata : s.data ≠ []) (herr : s.error = none) :
    fetchCatalogData env s = (s, 0) := by
  unfold fetchCatalogData
  rw [if_pos ⟨List.length_pos.mpr hdata, Or.inl herr⟩]

/-- Witness for C6 at a concrete populated, healthy state. -/
theorem fetchCatalogData_idempotent_witness :
    fetchCatalogData (MetaEnv.success []) ⟨[transformCatalogRow []], false, none, []⟩ =
      (⟨[transformCatalogRow []], false, none, []⟩, 0) :=
  fetchCatalogData_idempotent (MetaEnv.success []) ⟨[transformCatalogRow []], false, none, []⟩
    (by simp) rfl

/-- C8: every record the store writes into the cache (loading placeholder,
success record, failure record) has `totalRecords` equal to the length of its
`data` and carries an error only when `loading` is false; the invariant is
preserved by every step of every load and by eviction. -/
theorem cache_records_invariant :
    (∀ (env : String → LoadEnv) (cfg : StoreConfig) (p : LoadPhase),
        CacheInv cfg.cache → CacheInv (stepLoad env cfg p).1.cache) ∧
    (∀ (m : CacheMap) (x : Option String),
        CacheInv m → CacheInv (clearDatastoreCache m x)) := by
  constructor
  · intro env cfg p hinv
    cases p with
    | start n =>
        cases hc : cfg.cache n with
        | some cached =>
            by_cases h1 : cached.data.length > 0 ∧ cached.loading = false
            · simp [stepLoad, hc, h1]; exact hinv
            · by_cases h2 : cached.loading
              · simp [stepLoad, hc, h1, h2]; exact hinv
              · simp only [stepLoad, hc, if_neg h1, if_neg h2]
                exact cacheInv_update hinv ⟨rfl, by simp [loadingRecord]⟩
        | none =>
            simp only [stepLoad, hc]
            exact cacheInv_update hinv ⟨rfl, by simp [loadingRecord]⟩
    | fetching n => exact hinv
    | finishing n =>
        cases he : env n with
        | success cols raws =>
            simp only [stepLoad, he]
            refine cacheInv_update hinv ⟨?_, ?_⟩
            · simp [readyRecord]
            · simp [readyRecord]
        | httpFail status =>
            simp only [stepLoad, he]
            exact cacheInv_update hinv ⟨rfl, fun _ => rfl⟩
        | netFail m =>
            simp only [stepLoad, he]
            exact cacheInv_update hinv ⟨rfl, fun _ => rfl⟩
        | engineFail m =>
            simp only [stepLoad, he]
            exact cacheInv_update hinv ⟨rfl, fun _ => rfl⟩
        | queryFail m =>
            simp only [stepLoad, he]
            exact cacheInv_update hinv ⟨rfl, fun _ => rfl⟩
    | polling n =>
        cases hc : cfg.cache n with
        | some r =>
            by_cases hl : r.loading <;> simp [stepLoad, hc, hl] <;> exact hinv
        | none => simp [stepLoad, hc]; exact hinv
    | done n r => exact hinv
  · intro m x hinv
    cases x with
    | some n =>
        intro k rk hk
        simp only [clearDatastoreCache] at hk
        split at hk
        · cases hk
        · exact hinv k rk hk
    | none => intro k rk hk; cases hk

/-- Witness for C8: the invariant propagates through a concrete step from the
empty cache and through a concrete eviction. -/
theorem cache_records_invariant_witness :
    CacheInv (stepLoad (fun _ => LoadEnv.success [] []) ⟨fun _ => none, 0, 0⟩
      (.start "x")).1.cache ∧
    CacheInv (clearDatastoreCache (fun _ => none) none) :=
  ⟨cache_records_invariant.1 (fun _ => LoadEnv.success [] []) ⟨fun _ => none, 0, 0⟩
      (.start "x") (fun _ r h => nomatch h),
   cache_records_invariant.2 (fun _ => none) none (fun _ r h => nomatch h)⟩

/-- C5: eviction correctness: `clearDatastoreCache x` makes the lookup for
`x` absent while leaving every other entry unchanged; with no argument it
empties the whole cache; and a `loadDatastore x` that follows the eviction
takes the fresh-load path (it writes a loading placeholder and moves to the
fetch, which bumps the fetch counter) instead of reusing evicted data. -/
theorem clearDatastoreCache_correct :
    (∀ (m : CacheMap) (x : String),
        getDatastoreFromCache (clearDatastoreCache m (some x)) x = none) ∧
    (∀ (m : CacheMap) (x y : String), y ≠ x →
        getDatastoreFromCache (clearDatastoreCache m (some x)) y =
          getDatastoreFromCache m y) ∧
    (∀ (m : CacheMap) (y : String),
        getDatastoreFromCache (clearDatastoreCache m none) y = none) ∧
    (∀ (env : String → LoadEnv) (m : CacheMap) (x : String) (f t : Nat),
        (stepLoad env ⟨clearDatastoreCache m (some x), f, t⟩ (.start x)).2 = .fetching x ∧
        (runLoad env 2 (⟨clearDatastoreCache m (some x), f, t⟩, .start x)).1.fetches = f + 1) := by
  refine ⟨?_, ?_, ?_, ?_⟩
  · intro m x
    simp [getDatastoreFromCache, clearDatastoreCache]
  · intro m x y hxy
    simp [getDatastoreFromCache, clearDatastoreCache, hxy]
  · intro m y
    simp [getDatastoreFromCache, clearDatastoreCache]
  · intro env m x f t
    have hc : clearDatastoreCache m (some x) x = none := by simp [clearDatastoreCache]
    constructor
    · simp [stepLoad, hc]
    · rw [runLoad_succ]
      simp only [stepLoad, hc]
      rw [runLoad_succ]
      simp [stepLoad, runLoad]

/-- Witness for C5 at concrete names and a concrete one-entry cache. -/
theorem clearDatastoreCache_correct_witness :
    getDatastoreFromCache
      (clearDatastoreCache (cacheUpdate (fun _ => none) "x" (createEmptyCache 0)) (some "x"))
      "x" = none ∧
    getDatastoreFromCache
      (clearDatastoreCache (cacheUpdate (fun _ => none) "x" (createEmptyCache 0)) (some "x"))
      "y" =
      getDatastoreFromCache (cacheUpdate (fun _ => none) "x" (createEmptyCache 0)) "y" ∧
    getDatastoreFromCache (clearDatastoreCache (fun _ => none) none) "y" = none ∧
    (stepLoad (fun _ => LoadEnv.success [] [])
      ⟨clearDatastoreCache (fun _ => none) (some "x"), 0, 0⟩ (.start "x")).2 = .fetching "x" :=
  ⟨clearDatastoreCache_correct.1 _ "x",
   clearDatastoreCache_correct.2.1 _ "x" "y" (by decide),
   clearDatastoreCache_correct.2.2.1 _ "y",
   (clearDatastoreCache_correct.2.2.2 (fun _ => LoadEnv.success [] []) (fun _ => none) "x" 0 0).1⟩

/-- C9: a successfully completed record holding zero rows is not a cache
hit: when the entry for a name has `loading = false`, no error and an empty
`data` array, `loadDatastore` takes the fresh-load path (placeholder write,
then a fetch that bumps the counter) instead of returning the cached
record. -/
theorem loadDatastore_empty_record_refetches (env : String → LoadEnv)
    (cfg : StoreConfig) (n : String) (r : DatastoreCache)
    (hc : cfg.cache n = some r) (hload : r.loading = false)
    (herr : r.error = none) (hdata : r.data = []) :
    stepLoad env cfg (.start n) =
      ({ cfg with
          cache := cacheUpdate cfg.cache n (loadingRecord cfg.time)
          time := cfg.time + 1 }, .fetching n) ∧
    (runLoad env 2 (cfg, .start n)).1.fetches = cfg.fetches + 1 := by
  have hstep : stepLoad env cfg (.start n) =
      ({ cfg with
          cache := cacheUpdate cfg.cache n (loadingRecord cfg.time)
          time := cfg.time + 1 }, .fetching n) := by
    simp [stepLoad, hc, hdata, hload]
  refine ⟨hstep, ?_⟩
  rw [runLoad_succ]
  simp only [hstep]
  rw [runLoad_succ]
  simp [stepLoad, runLoad]

/-- Witness for C9: a concrete cache holding an empty, non-loading,
error-free record for `"x"` leads to a fresh fetch. -/
theorem loadDatastore_empty_record_refetches_witness :
    (runLoad (fun _ => LoadEnv.success [] [])
      2
      (⟨cacheUpdate (fun _ => none) "x"
          ⟨[], 0, [], [], false, none, 0⟩, 0, 0⟩, .start "x")).1.fetches = 0 + 1 :=
  (loadDatastore_empty_record_refetches (fun _ => LoadEnv.success [] [])
    ⟨cacheUpdate (fun _ => none) "x" ⟨[], 0, [], [], false, none, 0⟩, 0, 0⟩ "x"
    ⟨[], 0, [], [], false, none, 0⟩ (by simp [cacheUpdate]) rfl rfl rfl).2

lemma stepLoad_start_fresh (env : String → LoadEnv) (cfg : StoreConfig) (n : String)
    (hc : cfg.cache n = none) :
    stepLoad env cfg (.start n) =
      ({ cfg with
          cache := cacheUpdate cfg.cache n (loadingRecord cfg.time)
          time := cfg.time + 1 }, .fetching n) := by
  simp [stepLoad, hc]

lemma stepLoad_start_empty (env : String → LoadEnv) (cfg : StoreConfig) (n : String)
    (r : DatastoreCache) (hc : cfg.cache n = some r) (hd : r.data = [])
    (hl : r.loading = false) :
    stepLoad env cfg (.start n) =
      ({ cfg with
          cache := cacheUpdate cfg.cache n (loadingRecord cfg.time)
          time := cfg.time + 1 }, .fetching n) := by
  simp [stepLoad, hc, hd, hl]

lemma stepLoad_finishing_fail (env : String → LoadEnv) (cfg : StoreConfig) (n msg : String)
    (hmsg : loadErrorMsg (env n) = some msg) :
    stepLoad env cfg (.finishing n) =
      ({ cfg with
          cache := cacheUpdate cfg.cache n (failedRecord msg cfg.time)
          time := cfg.time + 1 }, .done n (.error msg)) := by
  cases henv : env n with
  | success cols raws => rw [henv] at hmsg; simp [loadErrorMsg] at hmsg
  | httpFail status =>
      rw [henv] at hmsg
      have h := Option.some.inj hmsg
      subst h
      simp [stepLoad, henv, loadErrorMsg]
  | netFail m =>
      rw [henv] at hmsg
      have h := Option.some.inj hmsg
      subst h
      simp [stepLoad, henv, loadErrorMsg]
  | engineFail m =>
      rw [henv] at hmsg
      have h := Option.some.inj hmsg
      subst h
      simp [stepLoad, henv, loadErrorMsg]
  | queryFail m =>
      rw [henv] at hmsg
      have h := Option.some.inj hmsg
      subst h
      simp [stepLoad, henv, loadErrorMsg]

lemma runLoad3_fail (env : String → LoadEnv) (cfg : StoreConfig) (n msg : String)
    (hmsg : loadErrorMsg (env n) = some msg)
    (hentry : stepLoad env cfg (.start n) =
      ({ cfg with
          cache := cacheUpdate cfg.cache n (loadingRecord cfg.time)
          time := cfg.time + 1 }, .fetching n)) :
    runLoad env 3 (cfg, .start n) =
      (⟨cacheUpdate (cacheUpdate cfg.cache n (loadingRecord cfg.time)) n
          (failedRecord msg (cfg.time + 2)), cfg.fetches + 1, cfg.time + 3⟩,
       .done n (.error msg)) := by
  rw [runLoad_succ]
  show runLoad env 2 (stepLoad env cfg (.start n)) = _
  rw [hentry, runLoad_succ]
  show runLoad env 1 (stepLoad env _ (.fetching n)) = _
  simp only [stepLoad]
  rw [runLoad_succ]
  show runLoad env 0 (stepLoad env _ (.finishing n)) = _
  rw [stepLoad_finishing_fail env _ n msg hmsg]
  rfl

lemma runLoad3_success (env : String → LoadEnv) (cfg : StoreConfig) (n : String)
    (cols : List String) (raws : List JSRow) (henv : env n = .success cols raws)
    (hentry : stepLoad env cfg (.start n) =
      ({ cfg with
          cache := cacheUpdate cfg.cache n (loadingRecord cfg.time)
          time := cfg.time + 1 }, .fetching n)) :
    runLoad env 3 (cfg, .start n) =
      (⟨cacheUpdate (cacheUpdate cfg.cache n (loadingRecord cfg.time)) n
          (readyRecord cols raws (cfg.time + 2)), cfg.fetches + 1, cfg.time + 3⟩,
       .done n (.ok (readyRecord cols raws (cfg.time + 2)))) := by
  rw [runLoad_succ]
  show runLoad env 2 (stepLoad env cfg (.start n)) = _
  rw [hentry, runLoad_succ]
  show runLoad env 1 (stepLoad env _ (.fetching n)) = _
  simp only [stepLoad]
  rw [runLoad_succ]
  show runLoad env 0 (stepLoad env _ (.finishing n)) = _
  simp only [stepLoad, henv]
  rfl

/-- C3: every load error (non-success HTTP status, transport, engine
initialization or query failure) is caught at the orchestration boundary and
becomes a cache record with `loading = false` carrying the human-readable
message, while the call itself rethrows; in particular a fetch answering 404
leaves a record whose message contains `"404"`, and a subsequent successful
call for the identical name turns the same slot into a ready record with
populated rows. -/
theorem loadDatastore_error_handling :
    (∀ (env : String → LoadEnv) (cfg : StoreConfig) (n msg : String),
        loadErrorMsg (env n) = some msg → cfg.cache n = none →
        ∃ r, (runLoad env 3 (cfg, .start n)).1.cache n = some r ∧
          r.loading = false ∧ r.error = some msg ∧
          (runLoad env 3 (cfg, .start n)).2 = .done n (.error msg)) ∧
    (∀ (env1 env2 : String → LoadEnv) (cfg : StoreConfig) (n : String)
        (cols : List String) (raws : List JSRow),
        env1 n = .httpFail 404 → env2 n = .success cols raws → raws ≠ [] →
        cfg.cache n = none →
        ∃ r1, (runLoad env1 3 (cfg, .start n)).1.cache n = some r1 ∧
          r1.loading = false ∧ (∃ m, r1.error = some m ∧ strContains m "404") ∧
          ∃ r2, (runLoad env2 3 ((runLoad env1 3 (cfg, .start n)).1, .start n)).1.cache n =
              some r2 ∧
            r2.loading = false ∧ r2.error = none ∧ r2.data ≠ [] ∧
            (runLoad env2 3 ((runLoad env1 3 (cfg, .start n)).1, .start n)).2 =
              .done n (.ok r2)) := by
  constructor
  · intro env cfg n msg hmsg hc
    rw [runLoad3_fail env cfg n msg hmsg (stepLoad_start_fresh env cfg n hc)]
    exact ⟨failedRecord msg (cfg.time + 2), by simp [cacheUpdate], rfl, rfl, rfl⟩
  · intro env1 env2 cfg n cols raws h1 h2 hraws hc
    have hmsg : loadErrorMsg (env1 n) =
        some ("Failed to fetch datastore parquet file: " ++ toString (404 : Nat)) := by
      rw [h1]; rfl
    rw [runLoad3_fail env1 cfg n _ hmsg (stepLoad_start_fresh env1 cfg n hc)]
    refine ⟨failedRecord ("Failed to fetch datastore parquet file: " ++ toString (404 : Nat))
        (cfg.time + 2), by simp [cacheUpdate], rfl,
      ⟨"Failed to fetch datastore parquet file: " ++ toString (404 : Nat), rfl,
        "Failed to fetch datastore parquet file: ", "", by decide⟩, ?_⟩
    have hc2 : (⟨cacheUpdate (cacheUpdate cfg.cache n (loadingRecord cfg.time)) n
        (failedRecord ("Failed to fetch datastore parquet file: " ++ toString (404 : Nat))
          (cfg.time + 2)), cfg.fetches + 1, cfg.time + 3⟩ : StoreConfig).cache n =
        some (failedRecord ("Failed to fetch datastore parquet file: " ++ toString (404 : Nat))
          (cfg.time + 2)) := by
      simp [cacheUpdate]
    rw [runLoad3_success env2 _ n cols raws h2 (stepLoad_start_empty env2 _ n _ hc2 rfl rfl)]
    refine ⟨readyRecord cols raws _, by simp [cacheUpdate], rfl, rfl, ?_, rfl⟩
    simp [readyRecord, hraws]

/-- Witness for C3: a concrete 404 followed by a concrete successful retry
of the same name, starting from the empty cache. -/
theorem loadDatastore_error_handling_witness :
    (∃ r, (runLoad (fun _ => LoadEnv.httpFail 404) 3 (⟨fun _ => none, 0, 0⟩, .start "x")).1.cache
        "x" = some r ∧
      r.loading = false ∧
      r.error = some "Failed to fetch datastore parquet file: 404" ∧
      (runLoad (fun _ => LoadEnv.httpFail 404) 3 (⟨fun _ => none, 0, 0⟩, .start "x")).2 =
        .done "x" (.error "Failed to fetch datastore parquet file: 404")) ∧
    (∃ r1, (runLoad (fun _ => LoadEnv.httpFail 404) 3
        (⟨fun _ => none, 0, 0⟩, .start "cmip6_fs38")).1.cache "cmip6_fs38" = some r1 ∧
      r1.loading = false ∧ (∃ m, r1.error = some m ∧ strContains m "404") ∧
      ∃ r2, (runLoad (fun _ => LoadEnv.success ["path"] [[("path", .vstr "p1")]]) 3
          ((runLoad (fun _ => LoadEnv.httpFail 404) 3
            (⟨fun _ => none, 0, 0⟩, .start "cmip6_fs38")).1, .start "cmip6_fs38")).1.cache
          "cmip6_fs38" = some r2 ∧
        r2.loading = false ∧ r2.error = none ∧ r2.data ≠ [] ∧
        (runLoad (fun _ => LoadEnv.success ["path"] [[("path", .vstr "p1")]]) 3
          ((runLoad (fun _ => LoadEnv.httpFail 404) 3
            (⟨fun _ => none, 0, 0⟩, .start "cmip6_fs38")).1, .start "cmip6_fs38")).2 =
          .done "cmip6_fs38" (.ok r2)) :=
  ⟨loadDatastore_error_handling.1 (fun _ => LoadEnv.httpFail 404) ⟨fun _ => none, 0, 0⟩
      "x" "Failed to fetch datastore parquet file: 404" rfl rfl,
   loadDatastore_error_handling.2 (fun _ => LoadEnv.httpFail 404)
      (fun _ => LoadEnv.success ["path"] [[("path", .vstr "p1")]])
      ⟨fun _ => none, 0, 0⟩ "cmip6_fs38" ["path"] [[("path", .vstr "p1")]]
      rfl rfl (by simp) rfl⟩

lemma stepLoad_start_loading (env : String → LoadEnv) (cfg : StoreConfig) (n : String)
    (r : DatastoreCache) (hc : cfg.cache n = some r) (hl : r.loading = true) :
    stepLoad env cfg (.start n) = ({ cfg with time := cfg.time + 1 }, .polling n) := by
  simp [stepLoad, hc, hl]

lemma stepLoad_polling_loading (env : String → LoadEnv) (cfg : StoreConfig) (n : String)
    (r : DatastoreCache) (hc : cfg.cache n = some r) (hl : r.loading = true) :
    stepLoad env cfg (.polling n) = ({ cfg with time := cfg.time + 1 }, .polling n) := by
  simp [stepLoad, hc, hl]

lemma stepLoad_polling_done (env : String → LoadEnv) (cfg : StoreConfig) (n : String)
    (r : DatastoreCache) (hc : cfg.cache n = some r) (hl : r.loading = false) :
    stepLoad env cfg (.polling n) = ({ cfg with time := cfg.time + 1 }, .done n (.ok r)) := by
  simp [stepLoad, hc, hl]

lemma stepLoad_fetching (env : String → LoadEnv) (cfg : StoreConfig) (n : String) :
    stepLoad env cfg (.fetching n) =
      ({ cfg with fetches := cfg.fetches + 1, time := cfg.time + 1 }, .finishing n) := rfl

lemma stepLoad_finishing_success (env : String → LoadEnv) (cfg : StoreConfig) (n : String)
    (cols : List String) (raws : List JSRow) (henv : env n = .success cols raws) :
    stepLoad env cfg (.finishing n) =
      ({ cfg with
          cache := cacheUpdate cfg.cache n (readyRecord cols raws cfg.time)
          time := cfg.time + 1 }, .done n (.ok (readyRecord cols raws cfg.time))) := by
  simp [stepLoad, henv]

lemma stepLoad_done (env : String → LoadEnv) (cfg : StoreConfig) (n : String)
    (r : Except String DatastoreCache) : stepLoad env cfg (.done n r) = (cfg, .done n r) := rfl

lemma stepTwo_first (env : String → LoadEnv) (s : TwoCalls) :
    stepTwo env s true =
      ⟨(stepLoad env s.cfg s.first).1, (stepLoad env s.cfg s.first).2, s.second⟩ := by
  simp [stepTwo]

lemma stepTwo_second (env : String → LoadEnv) (s : TwoCalls) :
    stepTwo env s false =
      ⟨(stepLoad env s.cfg s.second).1, s.first, (stepLoad env s.cfg s.second).2⟩ := by
  simp [stepTwo]

lemma dedupInv_step (env : String → LoadEnv) (n : String) (cols : List String)
    (raws : List JSRow) (f0 : Nat) (henv : env n = LoadEnv.success cols raws)
    (s : TwoCalls) (b : Bool) (h : DedupInv n cols raws f0 s) :
    DedupInv n cols raws f0 (stepTwo env s b) := by
  obtain ⟨cfg, p1, p2⟩ := s
  rcases h with ⟨t, hc, hf, h1, h2⟩ | ⟨t, hc, hf, h1, h2⟩ | ⟨t, hc, hf, h1, h2⟩ <;>
    simp only at hc hf h1 h2
  -- phase A: first is fetching, second polls, no fetch yet
  · subst h1; subst h2
    cases b
    · rw [stepTwo_second]
      simp only
      rw [stepLoad_polling_loading env cfg n (loadingRecord t) hc rfl]
      exact Or.inl ⟨t, hc, hf, rfl, rfl⟩
    · rw [stepTwo_first]
      simp only
      rw [stepLoad_fetching]
      exact Or.inr (Or.inl ⟨t, hc, by simp [hf], rfl, rfl⟩)
  -- phase B: fetch done, first will commit, second still polls
  · subst h1; subst h2
    cases b
    · rw [stepTwo_second]
      simp only
      rw [stepLoad_polling_loading env cfg n (loadingRecord t) hc rfl]
      exact Or.inr (Or.inl ⟨t, hc, hf, rfl, rfl⟩)
    · rw [stepTwo_first]
      simp only
      rw [stepLoad_finishing_success env cfg n cols raws henv]
      refine Or.inr (Or.inr ⟨cfg.time, ?_, hf, rfl, Or.inl rfl⟩)
      simp [cacheUpdate]
  -- phase C: ready record committed
  · subst h1
    cases b
    · rcases h2 with h2 | h2 <;> subst h2
      · rw [stepTwo_second]
        simp only
        rw [stepLoad_polling_done env cfg n (readyRecord cols raws t) hc rfl]
        exact Or.inr (Or.inr ⟨t, hc, hf, rfl, Or.inr rfl⟩)
      · rw [stepTwo_second]
        simp only
        rw [stepLoad_done]
        exact Or.inr (Or.inr ⟨t, hc, hf, rfl, Or.inr rfl⟩)
    · rw [stepTwo_first]
      simp only
      rw [stepLoad_done]
      exact Or.inr (Or.inr ⟨t, hc, hf, rfl, h2⟩)

lemma dedupInv_run (env : String → LoadEnv) (n : String) (cols : List String)
    (raws : List JSRow) (f0 : Nat) (henv : env n = LoadEnv.success cols raws) :
    ∀ (σ : List Bool) (s : TwoCalls), DedupInv n cols raws f0 s →
      DedupInv n cols raws f0 (runTwo env s σ)
  | [], s, h => h
  | b :: bs, s, h =>
      dedupInv_run env n cols raws f0 henv bs (stepTwo env s b)
        (dedupInv_step env n cols raws f0 henv s b h)

/-- C1: at most one in-flight load per dataset name.  A `loadDatastore` call
arriving while the record is loading starts no fetch and enters the polling
loop; a poller that sees the loading flag clear returns the record present in
the cache, and the defensive error placeholder when the entry is absent; and
for two concurrent calls of the same name (the second entering while the
first is in flight, as the synchronous entry prefix guarantees), every
completed interleaving performs exactly one fetch and resolves both calls to
the same final record. -/
theorem loadDatastore_deduplication :
    (∀ (env : String → LoadEnv) (cfg : StoreConfig) (n : String) (r : DatastoreCache),
        cfg.cache n = some r → r.loading = true →
        stepLoad env cfg (.start n) = ({ cfg with time := cfg.time + 1 }, .polling n)) ∧
    (∀ (env : String → LoadEnv) (cfg : StoreConfig) (n : String) (r : DatastoreCache),
        cfg.cache n = some r → r.loading = false →
        stepLoad env cfg (.polling n) = ({ cfg with time := cfg.time + 1 }, .done n (.ok r))) ∧
    (∀ (env : String → LoadEnv) (cfg : StoreConfig) (n : String),
        cfg.cache n = none →
        stepLoad env cfg (.polling n) =
          ({ cfg with time := cfg.time + 1 }, .done n (.ok (createEmptyCache cfg.time)))) ∧
    (∀ (env : String → LoadEnv) (cfg : StoreConfig) (n : String) (cols : List String)
        (raws : List JSRow) (σ : List Bool) (res1 res2 : Except String DatastoreCache),
        env n = LoadEnv.success cols raws → cfg.cache n = none →
        (stepTwo env (stepTwo env ⟨cfg, .start n, .start n⟩ true) false).second = .polling n ∧
        (stepTwo env (stepTwo env ⟨cfg, .start n, .start n⟩ true) false).cfg.fetches =
          cfg.fetches ∧
        ((runTwo env (stepTwo env (stepTwo env ⟨cfg, .start n, .start n⟩ true) false) σ).first =
            .done n res1 →
         (runTwo env (stepTwo env (stepTwo env ⟨cfg, .start n, .start n⟩ true) false) σ).second =
            .done n res2 →
         (runTwo env (stepTwo env (stepTwo env ⟨cfg, .start n, .start n⟩ true) false)
            σ).cfg.fetches = cfg.fetches + 1 ∧ res1 = res2)) := by
  refine ⟨?_, ?_, ?_, ?_⟩
  · intro env cfg n r hc hl
    exact stepLoad_start_loading env cfg n r hc hl
  · intro env cfg n r hc hl
    exact stepLoad_polling_done env cfg n r hc hl
  · intro env cfg n hc
    simp [stepLoad, hc]
  · intro env cfg n cols raws σ res1 res2 henv hc
    have hS : stepTwo env (stepTwo env ⟨cfg, .start n, .start n⟩ true) false =
        ⟨⟨cacheUpdate cfg.cache n (loadingRecord cfg.time), cfg.fetches, cfg.time + 2⟩,
         .fetching n, .polling n⟩ := by
      rw [stepTwo_first]
      dsimp only
      rw [stepLoad_start_fresh env cfg n hc]
      rw [stepTwo_second]
      dsimp only
      rw [stepLoad_start_loading env _ n (loadingRecord cfg.time) (by simp [cacheUpdate]) rfl]
    rw [hS]
    refine ⟨rfl, rfl, ?_⟩
    intro h1 h2
    have hinv :=
      dedupInv_run env n cols raws cfg.fetches henv σ
        ⟨⟨cacheUpdate cfg.cache n (loadingRecord cfg.time), cfg.fetches, cfg.time + 2⟩,
         .fetching n, .polling n⟩
        (Or.inl ⟨cfg.time, by simp [cacheUpdate], rfl, rfl, rfl⟩)
    rcases hinv with ⟨t, hcx, hf, hp1, hp2⟩ | ⟨t, hcx, hf, hp1, hp2⟩ | ⟨t, hcx, hf, hp1, hp2⟩
    · rw [h1] at hp1
      exact absurd hp1 (by simp)
    · rw [h1] at hp1
      exact absurd hp1 (by simp)
    · rw [h1] at hp1
      rcases hp2 with hp2 | hp2
      · rw [h2] at hp2
        exact absurd hp2 (by simp)
      · rw [h2] at hp2
        have e1 : res1 = .ok (readyRecord cols raws t) := by
          injection hp1
        have e2 : res2 = .ok (readyRecord cols raws t) := by
          injection hp2
        exact ⟨hf, e1.trans e2.symm⟩

/-- Witness for C1: a concrete pair of concurrent calls for `"x"` under a
success environment, run to completion by the schedule first-first-second:
one fetch, and both calls resolve to the identical ready record. -/
theorem loadDatastore_deduplication_witness :
    (runTwo (fun _ => LoadEnv.success ["a"] [[("a", JSValue.vstr "x")]])
        (stepTwo (fun _ => LoadEnv.success ["a"] [[("a", JSValue.vstr "x")]])
          (stepTwo (fun _ => LoadEnv.success ["a"] [[("a", JSValue.vstr "x")]])
            ⟨⟨fun _ => none, 0, 0⟩, .start "x", .start "x"⟩ true) false)
        [true, true, false]).cfg.fetches = 0 + 1 ∧
    (Except.ok (readyRecord ["a"] [[("a", JSValue.vstr "x")]] 3) :
        Except String DatastoreCache) =
      .ok (readyRecord ["a"] [[("a", JSValue.vstr "x")]] 3) :=
  (loadDatastore_deduplication.2.2.2
    (fun _ => LoadEnv.success ["a"] [[("a", JSValue.vstr "x")]])
    ⟨fun _ => none, 0, 0⟩ "x" ["a"] [[("a", JSValue.vstr "x")]] [true, true, false]
    (.ok (readyRecord ["a"] [[("a", JSValue.vstr "x")]] 3))
    (.ok (readyRecord ["a"] [[("a", JSValue.vstr "x")]] 3)) rfl rfl).2.2 rfl rfl

/-! ### Lemmas on the options accumulator -/

lemma optLookup_append (o1 o2 : List (String × List String)) (c : String) :
    optLookup (o1 ++ o2) c =
      match optLookup o1 c with
      | some l => some l
      | none => optLookup o2 c := by
  induction o1 with
  | nil => rfl
  | cons p rest ih =>
      simp only [List.cons_append, optLookup]
      split <;> simp [ih]

lemma optLookup_optAddVal (o : List (String × List String)) (c s c' : String) :
    optLookup (optAddVal o c s) c' =
      (optLookup o c').map (fun l => if c' = c then (if s ∈ l then l else l ++ [s]) else l) := by
  induction o with
  | nil => simp [optAddVal, optLookup]
  | cons p rest ih =>
      simp only [optAddVal, List.map_cons]
      by_cases hpc : p.1 = c
      · by_cases hpc' : p.1 = c'
        · subst hpc; subst hpc'
          simp [optLookup]
        · subst hpc
          simpa [optLookup, hpc', optAddVal] using ih
      · by_cases hpc' : p.1 = c'
        · subst hpc'
          simp [optLookup, hpc, fun h : p.1 = c => hpc h]
        · simpa [optLookup, hpc, hpc', optAddVal] using ih

lemma optLookup_ensureKey (o : List (String × List String)) (c c' : String) :
    optLookup (ensureKey o c) c' =
      if c' = c then some ((optLookup o c).getD []) else optLookup o c' := by
  unfold ensureKey
  cases h : optLookup o c with
  | some l =>
      by_cases hc : c' = c
      · subst hc; simp [h]
      · simp [hc]
  | none =>
      rw [optLookup_append]
      by_cases hc : c' = c
      · subst hc
        simp [h, optLookup]
      · cases h2 : optLookup o c' <;> simp [h2, optLookup, hc, Ne.symm hc]

lemma goodOpts_nil : GoodOpts (fun _ _ => False) [] := by
  intro c
  refine ⟨fun l h => (nomatch h), fun s => ?_⟩
  simp [optLookup]

lemma goodOpts_congr {P Q : String → String → Prop} {o : List (String × List String)}
    (h : GoodOpts P o) (hiff : ∀ c s, P c s ↔ Q c s) : GoodOpts Q o := by
  intro c
  exact ⟨(h c).1, fun s => (hiff c s).symm.trans ((h c).2 s)⟩

lemma mem_addElem (l0 : List String) (s x : String) :
    x ∈ (if s ∈ l0 then l0 else l0 ++ [s]) ↔ x ∈ l0 ∨ x = s := by
  split
  · next hs => exact ⟨Or.inl, fun h => h.elim id (fun e => e ▸ hs)⟩
  · simp

lemma nodup_addElem (l0 : List String) (s : String) (h : l0.Nodup) :
    (if s ∈ l0 then l0 else l0 ++ [s]).Nodup := by
  split
  · exact h
  · next hs => simp [List.nodup_append, h, hs]

lemma optLookup_optAddVal_self {o : List (String × List String)} {c : String}
    {l0 : List String} (s : String) (hk : optLookup o c = some l0) :
    optLookup (optAddVal o c s) c = some (if s ∈ l0 then l0 else l0 ++ [s]) := by
  rw [optLookup_optAddVal, hk]
  simp

lemma optLookup_optAddVal_other {o : List (String × List String)} {c s c' : String}
    (hc : c' ≠ c) : optLookup (optAddVal o c s) c' = optLookup o c' := by
  rw [optLookup_optAddVal]
  cases hl : optLookup o c' <;> simp [hc]

lemma goodOpts_ensureKey {P : String → String → Prop} {o : List (String × List String)}
    (c : String) (h : GoodOpts P o) : GoodOpts P (ensureKey o c) := by
  intro c'
  by_cases hc : c' = c
  · subst hc
    cases hl : optLookup o c' with
    | some l =>
        refine ⟨fun l' h' => ?_, fun s => ?_⟩
        · rw [optLookup_ensureKey, if_pos rfl, hl] at h'
          injection h' with e
          subst e
          exact (h c').1 l hl
        · rw [optLookup_ensureKey, if_pos rfl, hl]
          exact ((h c').2 s).trans (by simp [hl])
    | none =>
        refine ⟨fun l' h' => ?_, fun s => ?_⟩
        · rw [optLookup_ensureKey, if_pos rfl, hl] at h'
          injection h' with e
          subst e
          exact List.nodup_nil
        · rw [optLookup_ensureKey, if_pos rfl, hl]
          refine ((h c').2 s).trans ?_
          simp [hl]
  · refine ⟨fun l' h' => ?_, fun s => ?_⟩
    · rw [optLookup_ensureKey, if_neg hc] at h'
      exact (h c').1 l' h'
    · rw [optLookup_ensureKey, if_neg hc]
      exact (h c').2 s

lemma goodOpts_optAddVal {P : String → String → Prop} {o : List (String × List String)}
    {c : String} {l0 : List String} (s : String)
    (hk : optLookup o c = some l0) (h : GoodOpts P o) :
    GoodOpts (fun c' s' => P c' s' ∨ (c' = c ∧ s' = s)) (optAddVal o c s) := by
  intro c'
  by_cases hc : c' = c
  · subst hc
    refine ⟨fun l' h' => ?_, fun s' => ?_⟩
    · rw [optLookup_optAddVal_self s hk] at h'
      injection h' with e
      subst e
      exact nodup_addElem l0 s ((h c').1 l0 hk)
    · rw [optLookup_optAddVal_self s hk]
      constructor
      · rintro (hp | ⟨-, rfl⟩)
        · obtain ⟨l, hl, hmem⟩ := ((h c').2 s').mp hp
          rw [hk] at hl
          injection hl with e
          subst e
          exact ⟨_, rfl, (mem_addElem l0 s s').mpr (Or.inl hmem)⟩
        · exact ⟨_, rfl, (mem_addElem l0 s' s').mpr (Or.inr rfl)⟩
      · rintro ⟨l', hl', hmem⟩
        injection hl' with e
        subst e
        rcases (mem_addElem l0 s s').mp hmem with hm | hm
        · exact Or.inl (((h c').2 s').mpr ⟨l0, hk, hm⟩)
        · exact Or.inr ⟨rfl, hm⟩
  · refine ⟨fun l' h' => ?_, fun s' => ?_⟩
    · rw [optLookup_optAddVal_other hc] at h'
      exact (h c').1 l' h'
    · rw [optLookup_optAddVal_other hc, ← ((h c').2 s')]
      simp [hc]

lemma goodOpts_fold_items (col : String) :
    ∀ (xs : List JSValue) (P : String → String → Prop) (o : List (String × List String))
      (l0 : List String), optLookup o col = some l0 → GoodOpts P o →
      GoodOpts
        (fun c s => P c s ∨ (c = col ∧ ∃ it ∈ xs, keepVal it = true ∧ jsToString it = s))
        (xs.foldl
          (fun acc item => if keepVal item then optAddVal acc col (jsToString item) else acc) o)
  | [], P, o, l0, hk, h => by
      apply goodOpts_congr h
      intro c s
      simp
  | x :: xs, P, o, l0, hk, h => by
      simp only [List.foldl_cons]
      by_cases hx : keepVal x = true
      · rw [if_pos hx]
        have h' := goodOpts_optAddVal (jsToString x) hk h
        have hk' := optLookup_optAddVal_self (o := o) (c := col) (jsToString x) hk
        have hres := goodOpts_fold_items col xs _ _ _ hk' h'
        apply goodOpts_congr hres
        intro c s
        simp only [List.mem_cons]
        constructor
        · rintro ((hp | ⟨rfl, rfl⟩) | ⟨rfl, it, hit, hk2, hs⟩)
          · exact Or.inl hp
          · exact Or.inr ⟨rfl, x, Or.inl rfl, hx, rfl⟩
          · exact Or.inr ⟨rfl, it, Or.inr hit, hk2, hs⟩
        · rintro (hp | ⟨rfl, it, hit, hk2, hs⟩)
          · exact Or.inl (Or.inl hp)
          · rcases hit with rfl | hit
            · exact Or.inl (Or.inr ⟨rfl, hs.symm⟩)
            · exact Or.inr ⟨rfl, it, hit, hk2, hs⟩
      · rw [if_neg hx]
        have hres := goodOpts_fold_items col xs P o l0 hk h
        apply goodOpts_congr hres
        intro c s
        simp only [List.mem_cons]
        constructor
        · rintro (hp | ⟨rfl, it, hit, hk2, hs⟩)
          · exact Or.inl hp
          · exact Or.inr ⟨rfl, it, Or.inr hit, hk2, hs⟩
        · rintro (hp | ⟨rfl, it, hit, hk2, hs⟩)
          · exact Or.inl hp
          · rcases hit with rfl | hit
            · exact absurd hk2 hx
            · exact Or.inr ⟨rfl, it, hit, hk2, hs⟩

lemma goodOpts_addScalar {P : String → String → Prop} {o : List (String × List String)}
    {l0 : List String} (col : String) (v : JSValue)
    (h1 : GoodOpts P (ensureKey o col))
    (hk : optLookup (ensureKey o col) col = some l0) :
    GoodOpts (fun c s => P c s ∨ (c = col ∧ (keepVal v = true ∧ jsToString v = s)))
      (if keepVal v then optAddVal (ensureKey o col) col (jsToString v)
       else ensureKey o col) := by
  by_cases hkv : keepVal v = true
  · rw [if_pos hkv]
    apply goodOpts_congr (goodOpts_optAddVal (jsToString v) hk h1)
    intro c s
    constructor
    · rintro (hp | ⟨rfl, rfl⟩)
      · exact Or.inl hp
      · exact Or.inr ⟨rfl, hkv, rfl⟩
    · rintro (hp | ⟨rfl, -, rfl⟩)
      · exact Or.inl hp
      · exact Or.inr ⟨rfl, rfl⟩
  · rw [if_neg hkv]
    apply goodOpts_congr h1
    intro c s
    constructor
    · exact Or.inl
    · rintro (hp | ⟨-, hkv2, -⟩)
      · exact hp
      · exact absurd hkv2 hkv

lemma goodOpts_addCell {P : String → String → Prop} {o : List (String × List String)}
    (col : String) (v : JSValue) (h : GoodOpts P o) :
    GoodOpts (fun c s => P c s ∨ (c = col ∧ CellObs v s)) (addCell o col v) := by
  have h1 : GoodOpts P (ensureKey o col) := goodOpts_ensureKey col h
  have hk : optLookup (ensureKey o col) col = some ((optLookup o col).getD []) := by
    rw [optLookup_ensureKey, if_pos rfl]
  cases v with
  | varr xs =>
      have hres := goodOpts_fold_items col xs P (ensureKey o col) _ hk h1
      apply goodOpts_congr hres
      intro c s
      simp only [CellObs]
  | vnull => exact goodOpts_addScalar col .vnull h1 hk
  | vbool b => exact goodOpts_addScalar col (.vbool b) h1 hk
  | vnum m => exact goodOpts_addScalar col (.vnum m) h1 hk
  | vstr t => exact goodOpts_addScalar col (.vstr t) h1 hk
  | vvec xs => exact goodOpts_addScalar col (.vvec xs) h1 hk

lemma goodOpts_row :
    ∀ (row : JSRow) (P : String → String → Prop) (o : List (String × List String)),
      GoodOpts P o →
      GoodOpts (fun c s => P c s ∨ RowObs row c s)
        (row.foldl (fun a p => addCell a p.1 p.2) o)
  | [], P, o, h => by
      apply goodOpts_congr h
      intro c s
      simp [RowObs]
  | p :: row, P, o, h => by
      simp only [List.foldl_cons]
      have h' := goodOpts_addCell p.1 p.2 h
      have hres := goodOpts_row row _ _ h'
      apply goodOpts_congr hres
      intro c s
      simp only [RowObs, List.mem_cons]
      constructor
      · rintro ((hp | ⟨rfl, hobs⟩) | ⟨q, hq, hq1, hobs⟩)
        · exact Or.inl hp
        · exact Or.inr ⟨p, Or.inl rfl, rfl, hobs⟩
        · exact Or.inr ⟨q, Or.inr hq, hq1, hobs⟩
      · rintro (hp | ⟨q, hq, hq1, hobs⟩)
        · exact Or.inl (Or.inl hp)
        · rcases hq with rfl | hq
          · exact Or.inl (Or.inr ⟨hq1.symm, hobs⟩)
          · exact Or.inr ⟨q, hq, hq1, hobs⟩

lemma goodOpts_rows :
    ∀ (rows : List JSRow) (P : String → String → Prop) (o : List (String × List String)),
      GoodOpts P o →
      GoodOpts (fun c s => P c s ∨ Observed rows c s)
        (rows.foldl (fun acc row => row.foldl (fun a p => addCell a p.1 p.2) acc) o)
  | [], P, o, h => by
      apply goodOpts_congr h
      intro c s
      simp [Observed]
  | row :: rows, P, o, h => by
      simp only [List.foldl_cons]
      have h' := goodOpts_row row P o h
      have hres := goodOpts_rows rows _ _ h'
      apply goodOpts_congr hres
      intro c s
      simp only [Observed, List.mem_cons]
      constructor
      · rintro ((hp | hobs) | ⟨r2, hr2, hobs⟩)
        · exact Or.inl hp
        · exact Or.inr ⟨row, Or.inl rfl, hobs⟩
        · exact Or.inr ⟨r2, Or.inr hr2, hobs⟩
      · rintro (hp | ⟨r2, hr2, hobs⟩)
        · exact Or.inl (Or.inl hp)
        · rcases hr2 with rfl | hr2
          · exact Or.inl (Or.inr hobs)
          · exact Or.inr ⟨r2, hr2, hobs⟩

lemma charListLe_total : ∀ a b : List Char, charListLe a b = true ∨ charListLe b a = true
  | [], _ => Or.inl rfl
  | _ :: _, [] => Or.inr rfl
  | x :: xs, y :: ys => by
      rcases Nat.lt_trichotomy x.toNat y.toNat with h | h | h
      · left; simp [charListLe, h]
      · rcases charListLe_total xs ys with ih | ih
        · left
          simp only [charListLe]
          rw [if_neg (by omega), if_neg (by omega)]
          exact ih
        · right
          simp only [charListLe]
          rw [if_neg (by omega), if_neg (by omega)]
          exact ih
      · right; simp [charListLe, h]

lemma charListLe_trans :
    ∀ a b c : List Char, charListLe a b = true → charListLe b c = true →
      charListLe a c = true
  | [], _, _, _, _ => rfl
  | _ :: _, [], _, hab, _ => by simp [charListLe] at hab
  | _ :: _, _ :: _, [], _, hbc => by simp [charListLe] at hbc
  | x :: xs, y :: ys, z :: zs, hab, hbc => by
      simp only [charListLe] at hab hbc ⊢
      rcases Nat.lt_trichotomy x.toNat y.toNat with h1 | h1 | h1
      · rcases Nat.lt_trichotomy y.toNat z.toNat with h2 | h2 | h2
        · rw [if_pos (h1.trans h2)]
        · rw [if_pos (show x.toNat < z.toNat by omega)]
        · rw [if_neg (by omega), if_pos h2] at hbc
          simp at hbc
      · rcases Nat.lt_trichotomy y.toNat z.toNat with h2 | h2 | h2
        · rw [if_pos (show x.toNat < z.toNat by omega)]
        · rw [if_neg (by omega), if_neg (by omega)] at hab
          rw [if_neg (by omega), if_neg (by omega)] at hbc
          rw [if_neg (by omega), if_neg (by omega)]
          exact charListLe_trans xs ys zs hab hbc
        · rw [if_neg (by omega), if_pos h2] at hbc
          simp at hbc
      · rw [if_neg (by omega), if_pos h1] at hab
        simp at hab

lemma strLeB_total (a b : String) : strLeB a b = true ∨ strLeB b a = true :=
  charListLe_total a.toList b.toList

lemma strLeB_trans {a b c : String} (hab : strLeB a b = true) (hbc : strLeB b c = true) :
    strLeB a c = true :=
  charListLe_trans a.toList b.toList c.toList hab hbc

lemma insertStr_perm (s : String) : ∀ l : List String, List.Perm (insertStr s l) (s :: l)
  | [] => List.Perm.refl _
  | t :: ts => by
      simp only [insertStr]
      by_cases hst : strLeB s t = true
      · rw [if_pos hst]
      · rw [if_neg hst]
        exact ((insertStr_perm s ts).cons t).trans (List.Perm.swap s t ts)

lemma sortStrings_perm : ∀ l : List String, List.Perm (sortStrings l) l
  | [] => List.Perm.refl _
  | s :: ss => by
      simp only [sortStrings]
      exact (insertStr_perm s (sortStrings ss)).trans ((sortStrings_perm ss).cons s)

lemma sorted_insertStr (s : String) :
    ∀ l : List String, l.Sorted (fun a b => strLeB a b = true) →
      (insertStr s l).Sorted (fun a b => strLeB a b = true)
  | [], _ => by simp [insertStr]
  | t :: ts, h => by
      simp only [insertStr]
      obtain ⟨hts, hp⟩ := List.pairwise_cons.mp h
      by_cases hst : strLeB s t = true
      · rw [if_pos hst]
        refine List.Pairwise.cons ?_ h
        intro x hx
        rcases List.mem_cons.mp hx with rfl | hx
        · exact hst
        · exact strLeB_trans hst (hts x hx)
      · rw [if_neg hst]
        refine List.Pairwise.cons ?_ (sorted_insertStr s ts hp)
        intro x hx
        rcases List.mem_cons.mp ((insertStr_perm s ts).mem_iff.mp hx) with rfl | hx
        · rcases strLeB_total x t with h' | h'
          · exact absurd h' hst
          · exact h'
        · exact hts x hx

lemma sorted_sortStrings : ∀ l : List String,
    (sortStrings l).Sorted (fun a b => strLeB a b = true)
  | [] => by simp [sortStrings]
  | s :: ss => sorted_insertStr s (sortStrings ss) (sorted_sortStrings ss)

lemma optLookup_mapVals (f : List String → List String) (o : List (String × List String))
    (c : String) :
    optLookup (o.map fun p => (p.1, f p.2)) c = (optLookup o c).map f := by
  induction o with
  | nil => rfl
  | cons p rest ih =>
      simp only [List.map_cons, optLookup]
      by_cases hp : p.1 = c
      · simp [hp]
      · simp [hp, ih]

/-- C7: `generateFilterOptions` maps each column present in the rows to the
lexicographically sorted, duplicate-free sequence of exactly the stringified
values observed for that column across all rows - flattening array cells
into their elements and skipping every value that is null or empty after
trimming. -/
theorem generateFilterOptions_correct (rows : List JSRow) (col : String) (l : List String)
    (h : optLookup (generateFilterOptions rows) col = some l) :
    l.Sorted (fun a b => strLeB a b = true) ∧ l.Nodup ∧
      ∀ s, s ∈ l ↔ Observed rows col s := by
  have h' : (optLookup
      (rows.foldl (fun acc row => row.foldl (fun a p => addCell a p.1 p.2) acc) []) col).map
        sortStrings = some l := by
    rw [← optLookup_mapVals]
    exact h
  cases hsc : optLookup
      (rows.foldl (fun acc row => row.foldl (fun a p => addCell a p.1 p.2) acc) []) col with
  | none => rw [hsc] at h'; simp at h'
  | some l0 =>
      rw [hsc] at h'
      injection h' with e
      subst e
      have hG : GoodOpts (fun c s => Observed rows c s)
          (rows.foldl (fun acc row => row.foldl (fun a p => addCell a p.1 p.2) acc) []) :=
        goodOpts_congr (goodOpts_rows rows (fun _ _ => False) [] goodOpts_nil)
          (by intro c s; simp)
      refine ⟨sorted_sortStrings l0, ?_, ?_⟩
      · exact (sortStrings_perm l0).nodup_iff.mpr ((hG col).1 l0 hsc)
      · intro s
        rw [(sortStrings_perm l0).mem_iff]
        constructor
        · intro hs
          exact ((hG col).2 s).mpr ⟨l0, hsc, hs⟩
        · intro hobs
          obtain ⟨l2, hl2, hmem⟩ := ((hG col).2 s).mp hobs
          rw [hsc] at hl2
          injection hl2 with e2
          subst e2
          exact hmem

/-- Witness for C7: the rows of the testable-property example yield
`realm -> ["atmos", "ocean"]`, sorted, duplicate-free, and characterizing
exactly the observed values. -/
theorem generateFilterOptions_correct_witness :
    (["atmos", "ocean"] : List String).Sorted (fun a b => strLeB a b = true) ∧
    (["atmos", "ocean"] : List String).Nodup ∧
    (∀ s, s ∈ (["atmos", "ocean"] : List String) ↔
      Observed
        [[("realm", .varr [.vstr "ocean", .vstr "atmos"])],
         [("realm", .varr [.vstr "ocean"])],
         [("realm", .varr [])]] "realm" s) :=
  generateFilterOptions_correct
    [[("realm", .varr [.vstr "ocean", .vstr "atmos"])],
     [("realm", .varr [.vstr "ocean"])],
     [("realm", .varr [])]] "realm" ["atmos", "ocean"] (by decide)

lemma optKeys_optAddVal (o : List (String × List String)) (c s : String) :
    optKeys (optAddVal o c s) = optKeys o := by
  unfold optKeys optAddVal
  rw [List.map_map]
  congr 1
  funext p
  simp only [Function.comp_apply]
  split <;> rfl

lemma optKeys_mapVals (f : List String → List String) (o : List (String × List String)) :
    optKeys (o.map fun p => (p.1, f p.2)) = optKeys o := by
  unfold optKeys
  rw [List.map_map]
  rfl

lemma optLookup_isSome_mem (o : List (String × List String)) (c : String)
    (l : List String) (h : optLookup o c = some l) : c ∈ optKeys o := by
  induction o with
  | nil => cases h
  | cons p rest ih =>
      simp only [optLookup] at h
      by_cases hp : p.1 = c
      · exact hp ▸ List.mem_cons_self p.1 _
      · rw [if_neg hp] at h
        exact List.mem_cons_of_mem _ (ih h)

lemma mem_optKeys_ensureKey_self (o : List (String × List String)) (c : String) :
    c ∈ optKeys (ensureKey o c) := by
  unfold ensureKey
  cases h : optLookup o c with
  | some l => exact optLookup_isSome_mem o c l h
  | none => simp [optKeys]

lemma mem_optKeys_ensureKey_mono (o : List (String × List String)) (c k : String)
    (hk : k ∈ optKeys o) : k ∈ optKeys (ensureKey o c) := by
  unfold ensureKey
  cases optLookup o c with
  | some l => exact hk
  | none => simp only [optKeys, List.map_append, List.mem_append]; exact Or.inl hk

lemma optKeys_foldItems (col : String) (xs : List JSValue) :
    ∀ o : List (String × List String),
      optKeys (xs.foldl
        (fun acc item => if keepVal item then optAddVal acc col (jsToString item) else acc)
        o) = optKeys o := by
  induction xs with
  | nil => intro o; rfl
  | cons x xs ih =>
      intro o
      simp only [List.foldl_cons]
      rw [ih]
      split
      · exact optKeys_optAddVal o col (jsToString x)
      · rfl

lemma optKeys_addScalarAux (o : List (String × List String)) (col : String) (v : JSValue) :
    optKeys (if keepVal v then optAddVal (ensureKey o col) col (jsToString v)
             else ensureKey o col) = optKeys (ensureKey o col) := by
  split
  · exact optKeys_optAddVal _ col (jsToString v)
  · rfl

lemma optKeys_addCell (o : List (String × List String)) (col : String) (v : JSValue) :
    optKeys (addCell o col v) = optKeys (ensureKey o col) := by
  cases v with
  | varr xs => exact optKeys_foldItems col xs (ensureKey o col)
  | vnull => exact optKeys_addScalarAux o col .vnull
  | vbool b => exact optKeys_addScalarAux o col (.vbool b)
  | vnum m => exact optKeys_addScalarAux o col (.vnum m)
  | vstr t => exact optKeys_addScalarAux o col (.vstr t)
  | vvec xs => exact optKeys_addScalarAux o col (.vvec xs)

lemma optKeys_row_mono (row : JSRow) :
    ∀ (o : List (String × List String)) (k : String), k ∈ optKeys o →
      k ∈ optKeys (row.foldl (fun a p => addCell a p.1 p.2) o) := by
  induction row with
  | nil => intro o k hk; exact hk
  | cons p rest ih =>
      intro o k hk
      simp only [List.foldl_cons]
      refine ih (addCell o p.1 p.2) k ?_
      rw [optKeys_addCell]
      exact mem_optKeys_ensureKey_mono o p.1 k hk

lemma optKeys_row_self (row : JSRow) :
    ∀ (o : List (String × List String)) (p : String × JSValue), p ∈ row →
      p.1 ∈ optKeys (row.foldl (fun a q => addCell a q.1 q.2) o) := by
  induction row with
  | nil => intro o p hp; cases hp
  | cons q rest ih =>
      intro o p hp
      simp only [List.foldl_cons]
      rcases List.mem_cons.mp hp with rfl | hp
      · refine optKeys_row_mono rest (addCell o p.1 p.2) p.1 ?_
        rw [optKeys_addCell]
        exact mem_optKeys_ensureKey_self o p.1
      · exact ih (addCell o q.1 q.2) p hp

lemma optKeys_rows_mono (rows : List JSRow) :
    ∀ (o : List (String × List String)) (k : String), k ∈ optKeys o →
      k ∈ optKeys
        (rows.foldl (fun acc row => row.foldl (fun a p => addCell a p.1 p.2) acc) o) := by
  induction rows with
  | nil => intro o k hk; exact hk
  | cons row rest ih =>
      intro o k hk
      simp only [List.foldl_cons]
      exact ih _ k (optKeys_row_mono row o k hk)

lemma optKeys_rows_self (rows : List JSRow) :
    ∀ (o : List (String × List String)) (row : JSRow), row ∈ rows →
      ∀ p : String × JSValue, p ∈ row →
        p.1 ∈ optKeys
          (rows.foldl (fun acc r2 => r2.foldl (fun a q => addCell a q.1 q.2) acc) o) := by
  induction rows with
  | nil => intro o row hrow; cases hrow
  | cons r2 rest ih =>
      intro o row hrow p hp
      simp only [List.foldl_cons]
      rcases List.mem_cons.mp hrow with rfl | hrow
      · exact optKeys_rows_mono rest _ p.1 (optKeys_row_self row o p hp)
      · exact ih _ row hrow p hp

lemma transformRowGeneric_keys (cols : List String) (row : JSRow) :
    (transformRowGeneric cols row).map Prod.fst = cols := by
  unfold transformRowGeneric
  rw [List.map_map]
  have hcomp : (Prod.fst ∘ fun c => (c, processField (rowGet row c))) = id := by
    funext c
    rfl
  rw [hcomp, List.map_id]

/-- C10 (amended): for a dataset with at least one row whose schema contains
the reserved positional-index column, the ready record's `filterOptions` is
keyed by every column of the transformed rows - including
`__index_level_0__` - while the record's `columns` field excludes that
column; hence the key set of `filterOptions` strictly exceeds the `columns`
sequence.  (With zero rows both are empty and no strict inclusion holds.) -/
theorem filterOptions_keys_superset (env : String → LoadEnv) (cfg : StoreConfig) (n : String)
    (cols : List String) (raws : List JSRow)
    (henv : env n = LoadEnv.success cols raws) (hc : cfg.cache n = none)
    (hraws : raws ≠ []) (hidx : "__index_level_0__" ∈ cols) :
    ∃ r, (runLoad env 3 (cfg, .start n)).1.cache n = some r ∧
      (∀ c ∈ r.columns, c ∈ optKeys r.filterOptions) ∧
      "__index_level_0__" ∈ optKeys r.filterOptions ∧
      "__index_level_0__" ∉ r.columns := by
  obtain ⟨r0, rest, rfl⟩ : ∃ r0 rest, raws = r0 :: rest := by
    cases raws with
    | nil => exact absurd rfl hraws
    | cons a b => exact ⟨a, b, rfl⟩
  rw [runLoad3_success env cfg n cols (r0 :: rest) henv (stepLoad_start_fresh env cfg n hc)]
  have hfo : (readyRecord cols (r0 :: rest) (cfg.time + 2)).filterOptions =
      generateFilterOptions ((r0 :: rest).map (transformRowGeneric cols)) := rfl
  have hcols : (readyRecord cols (r0 :: rest) (cfg.time + 2)).columns =
      setupColumns cols := by
    simp [readyRecord, transformRowGeneric_keys]
  have hkeys : ∀ c ∈ cols,
      c ∈ optKeys (generateFilterOptions ((r0 :: rest).map (transformRowGeneric cols))) := by
    intro c hcmem
    simp only [generateFilterOptions]
    rw [optKeys_mapVals]
    exact optKeys_rows_self ((r0 :: rest).map (transformRowGeneric cols)) []
      (transformRowGeneric cols r0) (by simp)
      (c, processField (rowGet r0 c)) (List.mem_map.mpr ⟨c, hcmem, rfl⟩)
  refine ⟨readyRecord cols (r0 :: rest) (cfg.time + 2), by simp [cacheUpdate], ?_, ?_, ?_⟩
  · intro c hcc
    rw [hcols] at hcc
    rw [hfo]
    exact hkeys c (List.mem_filter.mp hcc).1
  · rw [hfo]
    exact hkeys _ hidx
  · rw [hcols]
    simp [setupColumns]

/-- C10 counterexample to the original claim: a dataset whose parquet schema
contains the reserved index column but holds zero rows produces a record
whose `filterOptions` has no keys at all while `columns` is also empty, so
the key set of `filterOptions` is not a strict superset of the `columns`
sequence. -/
theorem filterOptions_keys_zero_rows_counterexample :
    (runLoad (fun _ => LoadEnv.success ["__index_level_0__"] []) 3
      (⟨fun _ => none, 0, 0⟩, .start "x")).1.cache "x" =
      some (readyRecord ["__index_level_0__"] [] 2) ∧
    optKeys (readyRecord ["__index_level_0__"] [] 2).filterOptions = [] ∧
    (readyRecord ["__index_level_0__"] [] 2).columns = [] := by
  refine ⟨?_, rfl, rfl⟩
  rw [runLoad3_success (fun _ => LoadEnv.success ["__index_level_0__"] [])
    ⟨fun _ => none, 0, 0⟩ "x" ["__index_level_0__"] [] rfl
    (stepLoad_start_fresh (fun _ => LoadEnv.success ["__index_level_0__"] [])
      ⟨fun _ => none, 0, 0⟩ "x" rfl)]
  simp [cacheUpdate]

/-- Witness for the amended C10 at a concrete one-row dataset whose schema
carries the index column. -/
theorem filterOptions_keys_superset_witness :
    ∃ r, (runLoad
        (fun _ => LoadEnv.success ["path", "__index_level_0__"]
          [[("path", JSValue.vstr "p1"), ("__index_level_0__", JSValue.vnum 0)]]) 3
        (⟨fun _ => none, 0, 0⟩, .start "x")).1.cache "x" = some r ∧
      (∀ c ∈ r.columns, c ∈ optKeys r.filterOptions) ∧
      "__index_level_0__" ∈ optKeys r.filterOptions ∧
      "__index_level_0__" ∉ r.columns :=
  filterOptions_keys_superset
    (fun _ => LoadEnv.success ["path", "__index_level_0__"]
      [[("path", JSValue.vstr "p1"), ("__index_level_0__", JSValue.vnum 0)]])
    ⟨fun _ => none, 0, 0⟩ "x" ["path", "__index_level_0__"]
    [[("path", JSValue.vstr "p1"), ("__index_level_0__", JSValue.vnum 0)]]
    rfl rfl (by simp) (by simp)
